import Mathlib

/-!
Shallow embedding of `sdriving/envs/spline_env.py`: the spline-track
road-intersection environments (`RoadIntersectionSplineEnv` and
`RoadIntersectionLeftRightControlEnv`).

Coordinates and offsets are modelled as rationals: every numeric literal the
embedded code manipulates (`0.25`, `0.75`, `width / 2`, ...) is exactly
representable in binary floating point, and the only inexact literal (`0.76`,
the `arange` stop) enters only a comparison whose outcome agrees with the
exact rational one, so the rational model is faithful.

External collaborators (the base intersection environment's physics `step`,
the frozen low-level policy `accln_control.act`, the per-agent dynamics
model) are modelled as oracle parameters / pre-recorded traces, matching the
spec's "external collaborators, interfaces only" scoping.  Tensors are
modelled by their values; the one place where PyTorch view aliasing is
observable to the embedded code — the in-place `pt += deviation` on a slice
of an intermediate-goal tensor in the full-offset `step` — is modelled
explicitly as a write-back into `intermediate_goals`.
-/

set_option autoImplicit false

namespace SplineEnv

/-- A 2-D point (one row of a `(1, 2)` tensor). -/
structure Vec2 where
  x : ℚ
  y : ℚ
  deriving DecidableEq

/-- A 4-component state `(x, y, v, t)`: the shape of an intermediate goal and
of the dynamics states. -/
structure Vec4 where
  x : ℚ
  y : ℚ
  v : ℚ
  t : ℚ
  deriving DecidableEq

/-- The first two components of a `Vec4` (the `tensor[:2]` slice). -/
def Vec4.xy (g : Vec4) : Vec2 := ⟨g.x, g.y⟩

/-- Python list indexing: a negative index counts from the end
(`l[-1]` is the last element); an index outside `[-len, len)` raises
`IndexError`, modelled as `none`. -/
def pyGet {α : Type} (l : List α) (i : Int) : Option α :=
  let j : Int := if i < 0 then (l.length : Int) + i else i
  if j < 0 then none else l.get? j.toNat

/-- Python list element assignment at a (possibly negative) index; out of
range leaves the list unchanged (the embedded code only writes through an
index it has just read successfully). -/
def pySet {α : Type} (l : List α) (i : Int) (a : α) : List α :=
  let j : Int := if i < 0 then (l.length : Int) + i else i
  if j < 0 then l else l.set j.toNat a

/-- Numpy `arange start stop step` for a positive `step`: the values
`start + k * step` for `0 ≤ k < ⌈(stop - start) / step⌉`. -/
def arange (start stop step : ℚ) : List ℚ :=
  (List.range (max 0 ⌈(stop - start) / step⌉).toNat).map
    (fun k : ℕ => start + (k : ℚ) * step)

/-- Embeds `RoadIntersectionSplineEnv.get_dummy_point`: project a point lying
off the drivable square onto a far-field road point.  Falls through to `None`
(Python's implicit return) when the point is inside the square; the function
is pure (no side effects). -/
def get_dummy_point (width length : ℚ) (pt : Vec2) : Option Vec2 :=
  if pt.x > width / 2 then
    some ⟨length + width / 2, pt.y⟩
  else if pt.x < -(width / 2) then
    some ⟨-(length + width / 2), pt.y⟩
  else if pt.y > width / 2 then
    some ⟨pt.x, length + width / 2⟩
  else if pt.y < -(width / 2) then
    some ⟨pt.x, -(length + width / 2)⟩
  else
    none

/-- The per-axis offset values of the full-offset catalog:
`np.arange(-0.75, 0.76, 0.25)`. -/
def offset_axis_values : List ℚ := arange (-3/4) (76/100) (1/4)

/-- Embeds `RoadIntersectionSplineEnv.configure_action_list`: the
`itertools.product` of `np.arange(-0.75, 0.76, 0.25)` with itself (first
axis outermost), each pair one `(1, 2)` tensor. -/
def actions_list : List Vec2 :=
  (offset_axis_values.map
    (fun a => offset_axis_values.map (fun b => Vec2.mk a b))).flatten

/-- Embeds `RoadIntersectionLeftRightControlEnv.configure_action_list`:
the scalar offsets `[-0.5, 0.0, 0.5]`. -/
def lr_actions_list : List ℚ := [-1/2, 0, 1/2]

/-- The low-level acceleration catalog built in `__init__`:
`np.arange(-1.5, 1.75, 0.25)`. -/
def accln_control_actions_list : List ℚ := arange (-3/2) (7/4) (1/4)

/-- Embeds `get_action_space` for the full-offset variant: it returns
`Discrete(len(self.actions_list))`, of which only the size is observable. -/
def full_action_space_n : ℕ := actions_list.length

/-- Embeds `get_action_space` for the left/right variant. -/
def lr_action_space_n : ℕ := lr_actions_list.length

/-- The per-agent record of the spline environments: the fields of
`self.agents[a_id]` that the embedded code reads or writes, plus a log of
the `register_track` calls made on the agent's dynamics model (the dynamics
model itself is external; only the calls into it are observable). -/
structure Agent where
  position : Vec2
  speed : ℚ
  orientation : ℚ
  road_digit : ℕ
  intermediate_goals : List Vec4
  track_point : ℕ
  previous_start_point : Vec2
  track : List Vec2
  registered_tracks : List (List Vec2)
  deriving DecidableEq

/-- Embeds the spline-specific part of `RoadIntersectionSplineEnv.add_vehicle`
(the base-class work is external; `position`, `speed`, `orientation`, the
road-name digit and `intermediate_goals` are the values the base environment
supplies).  Returns `none` when the spawn position admits no dummy point:
Python would store `None` in the track and fail later at `torch.cat`. -/
def add_vehicle (width length : ℚ) (position : Vec2) (speed orientation : ℚ)
    (road_digit : ℕ) (goals : List Vec4) : Option Agent :=
  match get_dummy_point width length position with
  | none => none
  | some d => some
      { position := position
        speed := speed
        orientation := orientation
        road_digit := road_digit
        intermediate_goals := goals
        track_point := 0
        previous_start_point := position
        track := [d, position]
        registered_tracks := [] }

/-- One agent's slice of the `for a_id, action in actions.items()` body of
`RoadIntersectionSplineEnv.step`: read the goal at Python index
`track_point - 1`, add the catalog offset scaled by `width / 2` (the
in-place `pt += deviation` writes through the tensor view back into
`intermediate_goals`, which is modelled by the `pySet`), update
`previous_start_point`, append the point to the track; on reaching length
`len(intermediate_goals) + 2`, append the trailing dummy point and register
the concatenated track with the dynamics model.  The returned `Bool` is this
agent's contribution to the loop's `completed` flag; `none` models an
uncaught exception (`IndexError`, or `torch.cat` over a `None` dummy). -/
def step_agent_full (width length : ℚ) (ag : Agent) (action : Int) :
    Option (Agent × Bool) := do
  let g ← pyGet ag.intermediate_goals ((ag.track_point : Int) - 1)
  let dev ← pyGet actions_list action
  let pt : Vec2 := ⟨g.x + dev.x * width / 2, g.y + dev.y * width / 2⟩
  let ag1 : Agent :=
    { ag with
      intermediate_goals :=
        pySet ag.intermediate_goals ((ag.track_point : Int) - 1)
          ⟨pt.x, pt.y, g.v, g.t⟩
      previous_start_point := pt
      track := ag.track ++ [pt] }
  if ag1.track.length = ag1.intermediate_goals.length + 2 then do
    let d ← get_dummy_point width length pt
    some ({ ag1 with
            track := ag1.track ++ [d]
            registered_tracks := ag1.registered_tracks ++ [ag1.track ++ [d]] },
          true)
  else
    some (ag1, false)

/-- Looks a key up in an insertion-ordered dict, modelled as an association
list; `none` models a `KeyError`. -/
def dict_get {β : Type} (aid : String) : List (String × β) → Option β
  | [] => none
  | (k, v) :: rest => if k = aid then some v else dict_get aid rest

/-- Replaces the value at a key of an insertion-ordered dict (in-place value
mutation in Python: key order is unchanged, nothing is inserted). -/
def dict_update {β : Type} (aid : String) (v : β) :
    List (String × β) → List (String × β)
  | [] => []
  | (k, w) :: rest =>
    if k = aid then (k, v) :: rest else (k, w) :: dict_update aid v rest

/-- Dict assignment `d[k] = v`: replaces the value if the key is present,
appends the binding otherwise. -/
def dict_set {β : Type} (aid : String) (v : β) :
    List (String × β) → List (String × β)
  | [] => [(aid, v)]
  | (k, w) :: rest =>
    if k = aid then (k, v) :: rest else (k, w) :: dict_set aid v rest

/-- The track-building `for` loop of `RoadIntersectionSplineEnv.step`,
processing the action dict in insertion order and accumulating the
`completed` flag (`completed` is set to `True` by ANY agent whose track
reaches full length during this call). -/
def step_full_build (width length : ℚ) :
    List (String × Agent) → List (String × Int) →
    Option (List (String × Agent) × Bool)
  | ags, [] => some (ags, false)
  | ags, (aid, act) :: rest => do
    let ag ← dict_get aid ags
    let (ag1, c) ← step_agent_full width length ag act
    let (ags2, c2) ← step_full_build width length (dict_update aid ag1 ags) rest
    some (ags2, c || c2)

/-- `rewards[a_id] += r`: `none` models the `KeyError` raised when the base
environment reports a reward for an id absent from the rewards dict. -/
def add_reward (aid : String) (r : ℚ) :
    List (String × ℚ) → Option (List (String × ℚ))
  | [] => none
  | (k, v) :: rest =>
    if k = aid then some ((k, v + r) :: rest)
    else (add_reward aid r rest).map (fun rest1 => (k, v) :: rest1)

/-- One inner-loop tick's reward accumulation:
`for a_id, r in rew.items(): rewards[a_id] += r`. -/
def accum_tick (rewards : List (String × ℚ)) :
    List (String × ℚ) → Option (List (String × ℚ))
  | [] => some rewards
  | (aid, r) :: rest => do
    let rewards1 ← add_reward aid r rewards
    accum_tick rewards1 rest

/-- The inner rollout loop's accumulation from a given rewards dict over the
remaining ticks of the base environment's reward trace. -/
def run_inner_loop_from (rewards : List (String × ℚ)) :
    List (List (String × ℚ)) → Option (List (String × ℚ))
  | [] => some rewards
  | t :: ts => do
    let rewards1 ← accum_tick rewards t
    run_inner_loop_from rewards1 ts

/-- The inner rollout loop of both `step` methods, abstracted over the
external collaborators: `ticks` is the per-tick reward dict trace the base
environment's `step` produces (one entry per `while not done` iteration,
the trace ending exactly when `dones["__all__"]` becomes true; observation
construction and the frozen policy's `act` influence only those external
rewards).  Starts from `rewards = \x7ba_id: 0.0 for a_id in ids\x7d`. -/
def run_inner_loop (ids : List String) (ticks : List (List (String × ℚ))) :
    Option (List (String × ℚ)) :=
  run_inner_loop_from (ids.map (fun a => (a, (0 : ℚ)))) ticks

/-- The keys of `self.agents`, i.e. `get_agent_ids_list()` (the base
environment lists the agents in insertion order). -/
def agent_ids (ags : List (String × Agent)) : List String := ags.map Prod.fst

/-- The observable outcome of one outer `step` call.  `noop` is the
`(self.get_state(), 0.0, False, \x7b\x7d)` return (reward `0.0`,
`done = False`, with the carried agent table determining the raw
observation); `rollout` is the `(None, rewards, True, \x7b\x7d)` return
after the inner loop ran to completion (`done = True`). -/
inductive StepOutcome where
  | noop (agents : List (String × Agent))
  | rollout (agents : List (String × Agent)) (rewards : List (String × ℚ))
  deriving DecidableEq

/-- Embeds `RoadIntersectionSplineEnv.step`: run the track-building loop;
if no agent completed its track during this call, return the no-op tuple;
otherwise drive the inner rollout loop over the base environment's reward
trace and return the accumulated rewards with `done = True`. -/
def step_full (width length : ℚ) (ags : List (String × Agent))
    (actions : List (String × Int)) (ticks : List (List (String × ℚ))) :
    Option StepOutcome := do
  let (ags1, completed) ← step_full_build width length ags actions
  if completed then do
    let rewards ← run_inner_loop (agent_ids ags1) ticks
    some (.rollout ags1 rewards)
  else
    some (.noop ags1)

/-- Embeds `RoadIntersectionSplineEnv.get_state_single_agent`: `None` once
`track_point` has exhausted `intermediate_goals`; otherwise the 6-component
normalized observation, advancing `track_point` by one (the only operation
that increments it). -/
def get_state_single_agent (width length : ℚ) (ag : Agent) :
    Option (List ℚ) × Agent :=
  if h : ag.intermediate_goals.length ≤ ag.track_point then (none, ag)
  else
    let g := ag.intermediate_goals.get ⟨ag.track_point, by omega⟩
    let lw := length + width / 2
    (some [ag.previous_start_point.x / lw, ag.previous_start_point.y / lw,
           g.x / lw, g.y / lw, 1 / width, 1 / length],
     { ag with track_point := ag.track_point + 1 })

/-- The nominal-state list built by the `for _ in range(timesteps)` loop of
`transform_state_action_single_agent`: the start state followed by repeated
application of the external dynamics model to the single fixed action. -/
def nominal_states_list (dynamics : Vec4 → ℚ → Vec4) (a : ℚ) :
    Vec4 → ℕ → List Vec4
  | s, 0 => [s]
  | s, n + 1 => s :: nominal_states_list dynamics a (dynamics s a) n

/-- Embeds `RoadIntersectionSplineEnv.transform_state_action_single_agent`:
look the discrete index up in the low-level acceleration catalog
(`IndexError` is `none`), forward-simulate `timesteps` steps through the
external `dynamics` oracle, and return the zero goal state, the zero start
state, the `(nominal_states, nominal_actions)` extras, and the updated
`self.curr_actions` dict (the method's side effect). -/
def transform_state_action_single_agent (dynamics : Vec4 → ℚ → Vec4)
    (curr_actions : List (String × ℚ)) (a_id : String) (ag : Agent)
    (action : Int) (timesteps : ℕ) :
    Option (Vec4 × Vec4 × (List Vec4 × List ℚ) × List (String × ℚ)) := do
  let start_state : Vec4 := ⟨ag.position.x, ag.position.y, ag.speed, ag.orientation⟩
  let a ← pyGet accln_control_actions_list action
  some (⟨0, 0, 0, 0⟩, ⟨0, 0, 0, 0⟩,
        (nominal_states_list dynamics a start_state timesteps,
         List.replicate (timesteps + 1) a),
        dict_set a_id a curr_actions)

/-- The `pt[coord] = pt[coord] + deviation` coordinate update of the
left/right `step` (`coord` is `0` or `1`). -/
def set_coord (coord : ℕ) (p : Vec2) (d : ℚ) : Vec2 :=
  if coord = 0 then ⟨p.x + d, p.y⟩ else ⟨p.x, p.y + d⟩

/-- One agent's slice of `RoadIntersectionLeftRightControlEnv.step`: choose
the coordinate from the road-name digit, apply the scalar catalog offset
scaled by `width / 2` to that coordinate of a clone of every intermediate
goal (appending each to the track), then append the dummy point of the last
track point and register the concatenated track.  The catalog lookup happens
inside the goal loop, so an invalid index raises only when there is at least
one goal. -/
def step_agent_lr (width length : ℚ) (ag : Agent) (action : Int) :
    Option Agent := do
  let coord := (ag.road_digit + 1) % 2
  let pts ← ag.intermediate_goals.mapM (fun g => do
    let dev ← pyGet lr_actions_list action
    pure (set_coord coord g.xy (dev * width / 2)))
  let track1 := ag.track ++ pts
  let last ← track1.getLast?
  let d ← get_dummy_point width length last
  some { ag with
         track := track1 ++ [d]
         registered_tracks := ag.registered_tracks ++ [track1 ++ [d]] }

/-- The track-building `for` loop of
`RoadIntersectionLeftRightControlEnv.step` over the action dict. -/
def step_lr_build (width length : ℚ) :
    List (String × Agent) → List (String × Int) →
    Option (List (String × Agent))
  | ags, [] => some ags
  | ags, (aid, act) :: rest => do
    let ag ← dict_get aid ags
    let ag1 ← step_agent_lr width length ag act
    step_lr_build width length (dict_update aid ag1 ags) rest

/-- Embeds `RoadIntersectionLeftRightControlEnv.step`: build and register
every agent's track in one pass (there is no `completed` check), then always
drive the inner rollout loop and return `(None, rewards, True, ...)`. -/
def step_lr (width length : ℚ) (ags : List (String × Agent))
    (actions : List (String × Int)) (ticks : List (List (String × ℚ))) :
    Option StepOutcome := do
  let ags1 ← step_lr_build width length ags actions
  let rewards ← run_inner_loop (agent_ids ags1) ticks
  some (.rollout ags1 rewards)

/-- The reward the base environment attributes to one agent id in one
inner-loop tick (the sum of that id's entries of the tick's reward dict). -/
def agent_tick_sum (aid : String) (t : List (String × ℚ)) : ℚ :=
  ((t.filter (fun e => e.1 = aid)).map Prod.snd).sum

/-- The total number of `register_track` calls recorded across an agent
table. -/
def total_registered (ags : List (String × Agent)) : ℕ :=
  (ags.map (fun e => e.2.registered_tracks.length)).sum

/-- Iterated single-agent full-offset track extension: the effect on one
agent of a sequence of outer `step` calls, one action per call. -/
def run_steps_full (width length : ℚ) (ag : Agent) : List Int → Option Agent
  | [] => some ag
  | a :: rest => do
    let (ag1, _) ← step_agent_full width length ag a
    run_steps_full width length ag1 rest

/-! Concrete instances used to exercise the model: a 2-wide, 10-long
intersection with agents spawned on its roads. -/

/-- Example road width. -/
def w0 : ℚ := 2

/-- Example road length. -/
def l0 : ℚ := 10

/-- A fresh agent (as built by `add_vehicle`) on the north road with a single
intermediate goal. -/
def agA : Agent :=
  ⟨⟨0, 3/2⟩, 0, 0, 0, [⟨0, 3, 0, 0⟩], 0, ⟨0, 3/2⟩, [⟨0, 11⟩, ⟨0, 3/2⟩], []⟩

/-- The state of `agA` after one full-offset `step` with action index 0
(offset `(-3/4, -3/4)`, scaled by `w0 / 2 = 1`): the single goal is mutated
in place, the track is completed and registered. -/
def agA1 : Agent :=
  ⟨⟨0, 3/2⟩, 0, 0, 0, [⟨-3/4, 9/4, 0, 0⟩], 0, ⟨-3/4, 9/4⟩,
   [⟨0, 11⟩, ⟨0, 3/2⟩, ⟨-3/4, 9/4⟩, ⟨-3/4, 11⟩],
   [[⟨0, 11⟩, ⟨0, 3/2⟩, ⟨-3/4, 9/4⟩, ⟨-3/4, 11⟩]]⟩

/-- A fresh agent on the east road with two intermediate goals. -/
def agB : Agent :=
  ⟨⟨3/2, 0⟩, 0, 0, 0, [⟨3, 0, 0, 0⟩, ⟨5, 0, 0, 0⟩], 0, ⟨3/2, 0⟩,
   [⟨11, 0⟩, ⟨3/2, 0⟩], []⟩

/-- The state of `agB` after one full-offset `step` with action index 0: the
cursor wraps to the LAST goal, the track grows to 3 of the required 4
entries, and nothing is registered. -/
def agB1 : Agent :=
  ⟨⟨3/2, 0⟩, 0, 0, 0, [⟨3, 0, 0, 0⟩, ⟨17/4, -3/4, 0, 0⟩], 0, ⟨17/4, -3/4⟩,
   [⟨11, 0⟩, ⟨3/2, 0⟩, ⟨17/4, -3/4⟩], []⟩

/-- A fresh agent for the left/right variant, on a road whose name ends in
the digit 1, with a single intermediate goal. -/
def agC : Agent :=
  ⟨⟨3/2, 0⟩, 0, 0, 1, [⟨3, 0, 0, 0⟩], 0, ⟨3/2, 0⟩, [⟨11, 0⟩, ⟨3/2, 0⟩], []⟩

/-- The state of `agC` after one left/right `step` with action index 2
(offset `1/2` applied to the x coordinate): goals offset, dummy appended,
track registered, in a single call. -/
def agC1 : Agent :=
  ⟨⟨3/2, 0⟩, 0, 0, 1, [⟨3, 0, 0, 0⟩], 0, ⟨3/2, 0⟩,
   [⟨11, 0⟩, ⟨3/2, 0⟩, ⟨7/2, 0⟩, ⟨11, 0⟩],
   [[⟨11, 0⟩, ⟨3/2, 0⟩, ⟨7/2, 0⟩, ⟨11, 0⟩]]⟩

/-- A two-agent table whose agents need different numbers of extension
calls. -/
def envAB : List (String × Agent) := [("a", agA), ("b", agB)]

/-- One action for each agent of `envAB`. -/
def actsAB : List (String × Int) := [("a", 0), ("b", 0)]

/-- A single-tick base-environment reward trace for `envAB`. -/
def ticksAB : List (List (String × ℚ)) := [[("a", 1), ("b", 2)]]

/-- A single-agent table for the left/right variant. -/
def envC : List (String × Agent) := [("c", agC)]

/-- One action for the agent of `envC`. -/
def actsC : List (String × Int) := [("c", 2)]

/-- A one-tick reward trace for `envC`. -/
def ticksC : List (List (String × ℚ)) := [[("c", 5)]]

/-- A concrete dynamics-model oracle: constant-turn kinematics with the
action as acceleration. -/
def dyn0 : Vec4 → ℚ → Vec4 :=
  fun s a => ⟨s.x + s.v, s.y, s.v + a, s.t⟩

/-! Helper lemmas: concrete catalog values and Python-indexing facts. -/

lemma offset_axis_values_eq :
    offset_axis_values = [-3/4, -1/2, -1/4, 0, 1/4, 1/2, 3/4] := by
  have h : (⌈(((76:ℚ)/100) - (-3/4)) / (1/4)⌉ : ℤ) = 7 := by
    rw [Int.ceil_eq_iff] <;> norm_num
  rw [offset_axis_values, arange, h]
  have h2 : (max (0:ℤ) 7).toNat = 7 := by omega
  rw [h2]
  have h3 : List.range 7 = [0, 1, 2, 3, 4, 5, 6] := rfl
  rw [h3]
  simp only [List.map_cons, List.map_nil]
  norm_num

lemma accln_control_actions_list_eq :
    accln_control_actions_list =
      [-3/2, -5/4, -1, -3/4, -1/2, -1/4, 0, 1/4, 1/2, 3/4, 1, 5/4, 3/2] := by
  have h : (⌈(((7:ℚ)/4) - (-3/2)) / (1/4)⌉ : ℤ) = 13 := by
    rw [Int.ceil_eq_iff] <;> norm_num
  rw [accln_control_actions_list, arange, h]
  have h2 : (max (0:ℤ) 13).toNat = 13 := by omega
  rw [h2]
  have h3 : List.range 13 = [0, 1, 2, 3, 4, 5, 6, 7, 8, 9, 10, 11, 12] := rfl
  rw [h3]
  simp only [List.map_cons, List.map_nil]
  norm_num

lemma actions_list_length : actions_list.length = 49 := by
  rw [actions_list, offset_axis_values_eq]
  rfl

lemma accln_control_actions_list_length :
    accln_control_actions_list.length = 13 := by
  rw [accln_control_actions_list_eq]
  rfl

lemma pyGet_isSome_iff {α : Type} (l : List α) (i : Int) :
    (pyGet l i).isSome ↔ (-(l.length : Int) ≤ i ∧ i < l.length) := by
  simp only [pyGet]
  by_cases hi : i < 0
  · simp only [if_pos hi]
    by_cases hj : (l.length : Int) + i < 0
    · simp only [if_pos hj, Option.isSome_none, Bool.false_eq_true, false_iff]
      omega
    · simp only [if_neg hj, Option.isSome_iff_ne_none, Ne, List.get?_eq_none]
      omega
  · simp only [if_neg hi]
    by_cases hj : i < 0
    · omega
    · simp only [if_neg hj, Option.isSome_iff_ne_none, Ne, List.get?_eq_none]
      omega

lemma pyGet_eq_none_iff {α : Type} (l : List α) (i : Int) :
    pyGet l i = none ↔ (i < -(l.length : Int) ∨ (l.length : Int) ≤ i) := by
  rw [← Option.not_isSome_iff_eq_none, pyGet_isSome_iff]
  omega

lemma pyGet_of_nonneg {α : Type} (l : List α) (i : Int) (h : 0 ≤ i) :
    pyGet l i = l.get? i.toNat := by
  have h1 : ¬ i < 0 := by omega
  simp only [pyGet, if_neg h1]

lemma pyGet_neg_one {α : Type} (l : List α) (h : l ≠ []) :
    pyGet l (-1) = l.getLast? := by
  have hlen : 0 < l.length := List.length_pos.mpr h
  have h1 : ((-1 : Int) < 0) := by omega
  have h2 : ¬((l.length : Int) + -1 < 0) := by omega
  simp only [pyGet, if_pos h1, if_neg h2]
  have ht : ((l.length : Int) + -1).toNat = l.length - 1 := by omega
  rw [ht, List.getLast?_eq_getElem?, List.get?_eq_getElem?]

lemma pySet_length {α : Type} (l : List α) (i : Int) (a : α) :
    (pySet l i a).length = l.length := by
  simp only [pySet]
  split_ifs <;> simp

lemma pySet_neg_one {α : Type} (l : List α) (h : l ≠ []) (a : α) :
    pySet l (-1) a = l.set (l.length - 1) a := by
  have hlen : 0 < l.length := List.length_pos.mpr h
  have h1 : ((-1 : Int) < 0) := by omega
  have h2 : ¬((l.length : Int) + -1 < 0) := by omega
  simp only [pySet, if_pos h1, if_neg h2]
  congr 1
  omega

/-! Helper lemmas: dict operations and reward accumulation. -/

lemma dict_get_dict_set {β : Type} (aid : String) (v : β) :
    ∀ l : List (String × β), dict_get aid (dict_set aid v l) = some v := by
  intro l
  induction l with
  | nil => simp [dict_set, dict_get]
  | cons e rest ih =>
    obtain ⟨k, w⟩ := e
    by_cases hk : k = aid
    · simp [dict_set, dict_get, hk]
    · simp [dict_set, dict_get, hk, ih]

lemma agent_ids_dict_update (aid : String) (v : Agent) :
    ∀ ags : List (String × Agent),
      agent_ids (dict_update aid v ags) = agent_ids ags := by
  intro ags
  induction ags with
  | nil => rfl
  | cons e rest ih =>
    obtain ⟨k, w⟩ := e
    by_cases hk : k = aid
    · simp [dict_update, agent_ids, hk]
    · simp only [dict_update, if_neg hk]
      simp [agent_ids] at ih ⊢
      exact ih

lemma total_registered_update {aid : String} {ag ag1 : Agent} :
    ∀ {ags : List (String × Agent)}, dict_get aid ags = some ag →
      total_registered (dict_update aid ag1 ags) + ag.registered_tracks.length =
        total_registered ags + ag1.registered_tracks.length := by
  intro ags
  induction ags with
  | nil => intro h; simp [dict_get] at h
  | cons e rest ih =>
    obtain ⟨k, w⟩ := e
    intro h
    by_cases hk : k = aid
    · simp only [dict_get, if_pos hk, Option.some.injEq] at h
      subst h
      simp only [dict_update, if_pos hk, total_registered, List.map_cons,
        List.sum_cons]
      omega
    · simp only [dict_get, if_neg hk] at h
      simp only [dict_update, if_neg hk, total_registered, List.map_cons,
        List.sum_cons]
      have := ih h
      simp only [total_registered] at this
      omega

lemma dict_get_add_reward {aid : String} {r : ℚ} :
    ∀ {l l1 : List (String × ℚ)}, add_reward aid r l = some l1 →
      ∀ bid : String,
        dict_get bid l1 =
          if bid = aid then (dict_get bid l).map (fun v => v + r)
          else dict_get bid l := by
  intro l
  induction l with
  | nil => intro l1 h; simp [add_reward] at h
  | cons e rest ih =>
    obtain ⟨k, v⟩ := e
    intro l1 h bid
    by_cases hk : k = aid
    · simp only [add_reward, if_pos hk, Option.some.injEq] at h
      subst h
      by_cases hb : bid = aid
      · have hkb : k = bid := by rw [hk, hb]
        simp [dict_get, hkb, hb]
      · have hkb : ¬ k = bid := by rw [hk]; exact fun hh => hb hh.symm
        simp [dict_get, hkb, hb]
    · simp only [add_reward, if_neg hk] at h
      cases hrec : add_reward aid r rest with
      | none => rw [hrec] at h; simp at h
      | some rest1 =>
        rw [hrec] at h
        simp only [Option.map_some', Option.some.injEq] at h
        subst h
        by_cases hkb : k = bid
        · have hb : ¬ bid = aid := by
            intro hh
            exact hk (by rw [hkb, hh])
          simp [dict_get, hkb, hb]
        · simp only [dict_get, if_neg hkb]
          exact ih hrec bid

lemma agent_tick_sum_nil (aid : String) : agent_tick_sum aid [] = 0 := rfl

lemma agent_tick_sum_cons (aid bid : String) (r : ℚ) (t : List (String × ℚ)) :
    agent_tick_sum aid ((bid, r) :: t) =
      if bid = aid then r + agent_tick_sum aid t else agent_tick_sum aid t := by
  by_cases hb : bid = aid
  · simp [agent_tick_sum, hb]
  · simp [agent_tick_sum, hb]

lemma dict_get_accum_tick {aid : String} :
    ∀ {t rs rs1 : List (String × ℚ)} {v : ℚ},
      accum_tick rs t = some rs1 → dict_get aid rs = some v →
      dict_get aid rs1 = some (v + agent_tick_sum aid t) := by
  intro t
  induction t with
  | nil =>
    intro rs rs1 v h hv
    simp only [accum_tick, Option.some.injEq] at h
    subst h
    rw [hv, agent_tick_sum_nil, add_zero]
  | cons e rest ih =>
    obtain ⟨bid, r⟩ := e
    intro rs rs1 v h hv
    simp only [accum_tick] at h
    cases ha : add_reward bid r rs with
    | none => rw [ha] at h; simp at h
    | some rs2 =>
      rw [ha] at h
      simp only [Option.bind_eq_bind, Option.some_bind] at h
      have hget := dict_get_add_reward ha aid
      rw [agent_tick_sum_cons]
      by_cases hb : bid = aid
      · rw [if_pos hb]
        rw [if_pos hb.symm, hv] at hget
        simp only [Option.map_some'] at hget
        have := ih h hget
        rw [this]
        ring_nf
      · rw [if_neg hb]
        rw [if_neg (fun hh => hb hh.symm), hv] at hget
        exact ih h hget

lemma dict_get_run_inner_loop_from {aid : String} :
    ∀ {ticks : List (List (String × ℚ))} {rs rs1 : List (String × ℚ)} {v : ℚ},
      run_inner_loop_from rs ticks = some rs1 → dict_get aid rs = some v →
      dict_get aid rs1 = some (v + (ticks.map (agent_tick_sum aid)).sum) := by
  intro ticks
  induction ticks with
  | nil =>
    intro rs rs1 v h hv
    simp only [run_inner_loop_from, Option.some.injEq] at h
    subst h
    simp [hv]
  | cons t rest ih =>
    intro rs rs1 v h hv
    simp only [run_inner_loop_from] at h
    cases ha : accum_tick rs t with
    | none => rw [ha] at h; simp at h
    | some rs2 =>
      rw [ha] at h
      simp only [Option.bind_eq_bind, Option.some_bind] at h
      have h2 := dict_get_accum_tick ha hv
      have := ih h h2
      rw [this, List.map_cons, List.sum_cons]
      ring_nf

lemma dict_get_zero_map {aid : String} :
    ∀ {ids : List String}, aid ∈ ids →
      dict_get aid (ids.map (fun a => (a, (0 : ℚ)))) = some 0 := by
  intro ids
  induction ids with
  | nil => intro h; simp at h
  | cons b rest ih =>
    intro h
    by_cases hb : b = aid
    · simp [dict_get, hb]
    · have : aid ∈ rest := by
        cases h with
        | head => exact absurd rfl hb
        | tail _ ht => exact ht
      simp only [List.map_cons, dict_get, if_neg hb]
      exact ih this

lemma run_inner_loop_sum {ids : List String} {ticks : List (List (String × ℚ))}
    {rew : List (String × ℚ)} (h : run_inner_loop ids ticks = some rew)
    {aid : String} (ha : aid ∈ ids) :
    dict_get aid rew = some ((ticks.map (agent_tick_sum aid)).sum) := by
  have h0 := dict_get_zero_map ha
  have := dict_get_run_inner_loop_from h h0
  rw [this, zero_add]

/-! Helper lemmas: structure of the full-offset step. -/

lemma step_agent_full_spec {w l : ℚ} {ag ag1 : Agent} {a : Int} {c : Bool}
    (h : step_agent_full w l ag a = some (ag1, c)) :
    ag1.intermediate_goals.length = ag.intermediate_goals.length ∧
    ag1.track_point = ag.track_point ∧
    ag1.track.length = ag.track.length + (if c then 2 else 1) ∧
    ag1.registered_tracks.length =
      ag.registered_tracks.length + (if c then 1 else 0) ∧
    (c = true ↔ ag.track.length + 1 = ag.intermediate_goals.length + 2) := by
  unfold step_agent_full at h
  cases hg : pyGet ag.intermediate_goals ((ag.track_point : Int) - 1) with
  | none => rw [hg] at h; simp at h
  | some g =>
    rw [hg] at h
    cases hd : pyGet actions_list a with
    | none => rw [hd] at h; simp at h
    | some dev =>
      rw [hd] at h
      simp only [Option.bind_eq_bind, Option.some_bind] at h
      by_cases hcond :
          (ag.track ++ [(⟨g.x + dev.x * w / 2, g.y + dev.y * w / 2⟩ : Vec2)]).length =
            (pySet ag.intermediate_goals ((ag.track_point : Int) - 1)
              ⟨g.x + dev.x * w / 2, g.y + dev.y * w / 2, g.v, g.t⟩).length + 2
      · rw [if_pos hcond] at h
        cases hdm : get_dummy_point w l
            ⟨g.x + dev.x * w / 2, g.y + dev.y * w / 2⟩ with
        | none => rw [hdm] at h; simp at h
        | some d =>
          rw [hdm] at h
          simp only [Option.bind_eq_bind, Option.some_bind, Option.some.injEq,
            Prod.mk.injEq] at h
          obtain ⟨h1, h2⟩ := h
          subst h1
          subst h2
          rw [pySet_length] at hcond
          simp only [List.length_append, List.length_cons, List.length_nil]
            at hcond
          refine ⟨by simp [pySet_length], rfl, ?_, ?_, ?_⟩
          · simp only [List.length_append, List.length_cons, List.length_nil,
              if_true]
          · simp only [List.length_append, List.length_cons, List.length_nil,
              if_true]
          · constructor
            · intro _
              omega
            · intro _
              rfl
      · rw [if_neg hcond] at h
        simp only [Option.some.injEq, Prod.mk.injEq] at h
        obtain ⟨h1, h2⟩ := h
        subst h1
        subst h2
        rw [pySet_length] at hcond
        simp only [List.length_append, List.length_cons, List.length_nil]
          at hcond
        refine ⟨by simp [pySet_length], rfl, ?_, ?_, ?_⟩
        · simp only [List.length_append, List.length_cons, List.length_nil,
            if_false, Bool.false_eq_true]
        · simp only [if_false, Bool.false_eq_true, add_zero]
        · simp only [Bool.false_eq_true, false_iff]
          omega

lemma step_full_build_total_registered {w l : ℚ} :
    ∀ {actions : List (String × Int)} {ags ags1 : List (String × Agent)}
      {c : Bool},
      step_full_build w l ags actions = some (ags1, c) →
      total_registered ags ≤ total_registered ags1 ∧
      (c = true ↔ total_registered ags < total_registered ags1) := by
  intro actions
  induction actions with
  | nil =>
    intro ags ags1 c h
    simp only [step_full_build, Option.some.injEq, Prod.mk.injEq] at h
    obtain ⟨h1, h2⟩ := h
    subst h1
    subst h2
    simp
  | cons e rest ih =>
    obtain ⟨aid, act⟩ := e
    intro ags ags1 c h
    simp only [step_full_build] at h
    cases hg : dict_get aid ags with
    | none => rw [hg] at h; simp at h
    | some ag =>
      rw [hg] at h
      simp only [Option.bind_eq_bind, Option.some_bind] at h
      cases hs : step_agent_full w l ag act with
      | none => rw [hs] at h; simp at h
      | some p =>
        obtain ⟨ag2, c1⟩ := p
        rw [hs] at h
        simp only [Option.bind_eq_bind, Option.some_bind] at h
        cases hb : step_full_build w l (dict_update aid ag2 ags) rest with
        | none => rw [hb] at h; simp at h
        | some q =>
          obtain ⟨ags2, c2⟩ := q
          rw [hb] at h
          simp only [Option.bind_eq_bind, Option.some_bind, Option.some.injEq,
            Prod.mk.injEq] at h
          obtain ⟨h1, h2⟩ := h
          subst h1
          subst h2
          have hupd := @total_registered_update aid ag ag2 ags hg
          have hreg := (step_agent_full_spec hs).2.2.2.1
          have hrec := ih hb
          cases c1 <;> cases c2 <;>
            simp only [Bool.false_or, Bool.true_or, Bool.or_false,
              Bool.or_true] <;>
            simp only [if_true, if_false, Bool.true_eq_false,
              Bool.false_eq_true, false_iff, true_iff, iff_true,
              iff_false] at hreg hrec ⊢ <;>
            omega

lemma step_full_rollout_inv {w l : ℚ} {ags ags1 : List (String × Agent)}
    {actions : List (String × Int)} {ticks : List (List (String × ℚ))}
    {rew : List (String × ℚ)}
    (h : step_full w l ags actions ticks = some (.rollout ags1 rew)) :
    step_full_build w l ags actions = some (ags1, true) ∧
    run_inner_loop (agent_ids ags1) ticks = some rew := by
  unfold step_full at h
  cases hb : step_full_build w l ags actions with
  | none => rw [hb] at h; simp at h
  | some p =>
    obtain ⟨ags2, c⟩ := p
    rw [hb] at h
    simp only [Option.bind_eq_bind, Option.some_bind] at h
    cases c with
    | false => simp at h
    | true =>
      simp only [if_true] at h
      cases hr : run_inner_loop (agent_ids ags2) ticks with
      | none => rw [hr] at h; simp at h
      | some r =>
        rw [hr] at h
        simp only [Option.bind_eq_bind, Option.some_bind, Option.some.injEq,
          StepOutcome.rollout.injEq] at h
        obtain ⟨h1, h2⟩ := h
        subst h1
        subst h2
        exact ⟨rfl, hr⟩

/-! Helper lemmas: nominal rollouts, the left/right step and observations. -/

lemma nominal_states_list_length (dyn : Vec4 → ℚ → Vec4) (a : ℚ) :
    ∀ (n : ℕ) (s : Vec4), (nominal_states_list dyn a s n).length = n + 1 := by
  intro n
  induction n with
  | zero => intro s; rfl
  | succ m ih =>
    intro s
    simp only [nominal_states_list, List.length_cons, ih]

lemma nominal_states_list_get (dyn : Vec4 → ℚ → Vec4) (a : ℚ) :
    ∀ (n k : ℕ) (s : Vec4), k ≤ n →
      (nominal_states_list dyn a s n).get? k =
        some ((fun st => dyn st a)^[k] s) := by
  intro n
  induction n with
  | zero =>
    intro k s hk
    interval_cases k
    rfl
  | succ m ih =>
    intro k s hk
    cases k with
    | zero => rfl
    | succ j =>
      have hj : j ≤ m := by omega
      simp only [nominal_states_list, List.get?_cons_succ]
      rw [ih j (dyn s a) hj, Function.iterate_succ_apply]

lemma mapM_option_const {α β γ : Type} {m : Option γ} {c : γ} (hm : m = some c)
    (f : γ → α → β) : ∀ l : List α,
      l.mapM (fun g => do
        let x ← m
        pure (f x g)) = some (l.map (fun g => f c g)) := by
  subst hm
  intro l
  induction l with
  | nil => rfl
  | cons b rest ih =>
    rw [List.mapM_cons, ih]
    rfl

lemma step_agent_lr_spec {w l : ℚ} {ag ag1 : Agent} {action : Int} {dev : ℚ}
    (hdev : pyGet lr_actions_list action = some dev)
    (h : step_agent_lr w l ag action = some ag1) :
    ∃ last d,
      (ag.track ++ ag.intermediate_goals.map (fun g =>
          set_coord ((ag.road_digit + 1) % 2) g.xy (dev * w / 2))).getLast? =
        some last ∧
      get_dummy_point w l last = some d ∧
      ag1.track = ag.track ++ ag.intermediate_goals.map (fun g =>
          set_coord ((ag.road_digit + 1) % 2) g.xy (dev * w / 2)) ++ [d] ∧
      ag1.registered_tracks = ag.registered_tracks ++ [ag1.track] := by
  simp only [step_agent_lr] at h
  rw [mapM_option_const hdev
    (fun dv g => set_coord ((ag.road_digit + 1) % 2) g.xy (dv * w / 2))
    ag.intermediate_goals] at h
  simp only [Option.bind_eq_bind, Option.some_bind] at h
  cases hlast : (ag.track ++ ag.intermediate_goals.map (fun g =>
      set_coord ((ag.road_digit + 1) % 2) g.xy (dev * w / 2))).getLast? with
  | none => rw [hlast] at h; simp at h
  | some last =>
    rw [hlast] at h
    simp only [Option.bind_eq_bind, Option.some_bind] at h
    cases hdm : get_dummy_point w l last with
    | none => rw [hdm] at h; simp at h
    | some d =>
      rw [hdm] at h
      simp only [Option.bind_eq_bind, Option.some_bind, Option.some.injEq] at h
      subst h
      exact ⟨last, d, rfl, hdm, rfl, rfl⟩

lemma step_lr_rollout_inv {w l : ℚ} {ags : List (String × Agent)}
    {actions : List (String × Int)} {ticks : List (List (String × ℚ))}
    {out : StepOutcome} (h : step_lr w l ags actions ticks = some out) :
    ∃ ags1 rew, step_lr_build w l ags actions = some ags1 ∧
      run_inner_loop (agent_ids ags1) ticks = some rew ∧
      out = .rollout ags1 rew := by
  unfold step_lr at h
  cases hb : step_lr_build w l ags actions with
  | none => rw [hb] at h; simp at h
  | some ags1 =>
    rw [hb] at h
    simp only [Option.bind_eq_bind, Option.some_bind] at h
    cases hr : run_inner_loop (agent_ids ags1) ticks with
    | none => rw [hr] at h; simp at h
    | some rew =>
      rw [hr] at h
      simp only [Option.bind_eq_bind, Option.some_bind, Option.some.injEq] at h
      exact ⟨ags1, rew, rfl, hr, h.symm⟩

lemma get_state_single_agent_advances {w l : ℚ} {ag : Agent}
    (h : ag.track_point < ag.intermediate_goals.length) :
    (get_state_single_agent w l ag).2.track_point = ag.track_point + 1 ∧
    ((get_state_single_agent w l ag).1).isSome := by
  have hn : ¬ ag.intermediate_goals.length ≤ ag.track_point := by omega
  unfold get_state_single_agent
  rw [dif_neg hn]
  exact ⟨rfl, rfl⟩

lemma get_state_single_agent_exhausted {w l : ℚ} {ag : Agent}
    (h : ag.intermediate_goals.length ≤ ag.track_point) :
    get_state_single_agent w l ag = (none, ag) := by
  unfold get_state_single_agent
  rw [dif_pos h]

lemma step_agent_full_appends {w l : ℚ} {ag ag1 : Agent} {a : Int}
    {c : Bool} {g : Vec4} {dev : Vec2}
    (hg : pyGet ag.intermediate_goals ((ag.track_point : Int) - 1) = some g)
    (hdev : pyGet actions_list a = some dev)
    (h : step_agent_full w l ag a = some (ag1, c)) :
    ag1.track.get? ag.track.length =
      some ⟨g.x + dev.x * w / 2, g.y + dev.y * w / 2⟩ := by
  unfold step_agent_full at h
  rw [hg, hdev] at h
  simp only [Option.bind_eq_bind, Option.some_bind] at h
  by_cases hcond :
      (ag.track ++ [(⟨g.x + dev.x * w / 2, g.y + dev.y * w / 2⟩ : Vec2)]).length =
        (pySet ag.intermediate_goals ((ag.track_point : Int) - 1)
          ⟨g.x + dev.x * w / 2, g.y + dev.y * w / 2, g.v, g.t⟩).length + 2
  · rw [if_pos hcond] at h
    cases hdm : get_dummy_point w l
        ⟨g.x + dev.x * w / 2, g.y + dev.y * w / 2⟩ with
    | none => rw [hdm] at h; simp at h
    | some d =>
      rw [hdm] at h
      simp only [Option.bind_eq_bind, Option.some_bind, Option.some.injEq,
        Prod.mk.injEq] at h
      obtain ⟨h1, _⟩ := h
      subst h1
      have hlt : ag.track.length < (ag.track ++
          [(⟨g.x + dev.x * w / 2, g.y + dev.y * w / 2⟩ : Vec2)]).length := by
        simp
      rw [List.get?_append hlt, List.get?_concat_length]
  · rw [if_neg hcond] at h
    simp only [Option.some.injEq, Prod.mk.injEq] at h
    obtain ⟨h1, _⟩ := h
    subst h1
    rw [List.get?_concat_length]

/-! Helper lemmas: evaluation of the model on the concrete instances. -/

lemma pyGet_actions_list_zero : pyGet actions_list 0 = some ⟨-3/4, -3/4⟩ := by
  rw [pyGet_of_nonneg _ _ (by omega), actions_list, offset_axis_values_eq]
  rfl

lemma pyGet_accln_zero :
    pyGet accln_control_actions_list 0 = some (-3/2) := by
  rw [pyGet_of_nonneg _ _ (by omega), accln_control_actions_list_eq]
  rfl

lemma pyGet_lr_two : pyGet lr_actions_list 2 = some (1/2) := rfl

lemma pyGet_actions_list_neg_one :
    pyGet actions_list (-1) = some ⟨3/4, 3/4⟩ := by
  have hne : actions_list ≠ [] := by
    rw [actions_list, offset_axis_values_eq]
    simp
  rw [pyGet_neg_one actions_list hne, actions_list, offset_axis_values_eq]
  rfl

lemma add_vehicle_agA :
    add_vehicle w0 l0 ⟨0, 3/2⟩ 0 0 0 [⟨0, 3, 0, 0⟩] = some agA := by
  have hd : get_dummy_point w0 l0 ⟨0, 3/2⟩ = some ⟨0, 11⟩ := by
    norm_num [get_dummy_point, w0, l0]
  rw [add_vehicle, hd]
  rfl

lemma step_agent_full_agA : step_agent_full w0 l0 agA 0 = some (agA1, true) := by
  norm_num [step_agent_full, pyGet, pySet, agA, agA1, w0, l0, get_dummy_point,
    actions_list, offset_axis_values_eq]

lemma step_agent_full_agB :
    step_agent_full w0 l0 agB 0 = some (agB1, false) := by
  norm_num [step_agent_full, pyGet, pySet, agB, agB1, w0, l0, get_dummy_point,
    actions_list, offset_axis_values_eq]

lemma run_steps_full_agA : run_steps_full w0 l0 agA [0] = some agA1 := by
  simp only [run_steps_full, step_agent_full_agA, Option.bind_eq_bind,
    Option.some_bind]

lemma step_full_build_envAB :
    step_full_build w0 l0 envAB actsAB =
      some ([("a", agA1), ("b", agB1)], true) := by
  have hab : ¬ ("a" : String) = "b" := by decide
  have hba : ¬ ("b" : String) = "a" := by decide
  norm_num [envAB, actsAB, step_full_build, dict_get, dict_update,
    step_agent_full_agA, step_agent_full_agB, Option.bind_eq_bind, hab, hba]

lemma step_full_envAB :
    step_full w0 l0 envAB actsAB ticksAB =
      some (.rollout [("a", agA1), ("b", agB1)] [("a", 1), ("b", 2)]) := by
  have hab : ¬ ("a" : String) = "b" := by decide
  have hba : ¬ ("b" : String) = "a" := by decide
  norm_num [step_full, step_full_build_envAB, Option.bind_eq_bind,
    run_inner_loop, run_inner_loop_from, accum_tick, add_reward,
    agent_ids, ticksAB, Function.comp, hab, hba]

lemma step_agent_lr_agC : step_agent_lr w0 l0 agC 2 = some agC1 := by
  have hmap := mapM_option_const pyGet_lr_two
    (fun dv g => set_coord ((agC.road_digit + 1) % 2) g.xy (dv * w0 / 2))
    agC.intermediate_goals
  simp only [step_agent_lr]
  rw [hmap]
  norm_num [agC, agC1, set_coord, Vec4.xy, get_dummy_point, w0, l0,
    Option.bind_eq_bind, List.getLast?]

lemma step_lr_envC :
    step_lr w0 l0 envC actsC ticksC =
      some (.rollout [("c", agC1)] [("c", 5)]) := by
  norm_num [step_lr, envC, actsC, step_lr_build, dict_get, dict_update,
    step_agent_lr_agC, Option.bind_eq_bind, run_inner_loop,
    run_inner_loop_from, accum_tick, add_reward, agent_ids, ticksC,
    Function.comp]

lemma add_vehicle_inv {w l : ℚ} {pos : Vec2} {sp ori : ℚ} {rd : ℕ}
    {goals : List Vec4} {ag : Agent}
    (h : add_vehicle w l pos sp ori rd goals = some ag) :
    ∃ d, get_dummy_point w l pos = some d ∧
      ag = ⟨pos, sp, ori, rd, goals, 0, pos, [d, pos], []⟩ := by
  unfold add_vehicle at h
  cases hd : get_dummy_point w l pos with
  | none => rw [hd] at h; simp at h
  | some d =>
    rw [hd] at h
    simp only [Option.some.injEq] at h
    exact ⟨d, rfl, h.symm⟩

lemma run_steps_full_invariant {w l : ℚ} {G : ℕ} :
    ∀ (acts : List Int) (n : ℕ) (ag ag1 : Agent),
      ag.intermediate_goals.length = G →
      run_steps_full w l ag acts = some ag1 →
      (n < G → ag.track.length = n + 2 ∧ ag.registered_tracks.length = 0) →
      (G ≤ n → ag.track.length = n + 3 ∧ ag.registered_tracks.length = 1) →
      ((n + acts.length < G →
          ag1.track.length = n + acts.length + 2 ∧
          ag1.registered_tracks.length = 0) ∧
       (G ≤ n + acts.length →
          ag1.track.length = n + acts.length + 3 ∧
          ag1.registered_tracks.length = 1)) := by
  intro acts
  induction acts with
  | nil =>
    intro n ag ag1 hlen hrun hlt hge
    simp only [run_steps_full, Option.some.injEq] at hrun
    subst hrun
    simp only [List.length_nil, add_zero]
    exact ⟨hlt, hge⟩
  | cons a rest ih =>
    intro n ag ag1 hlen hrun hlt hge
    simp only [run_steps_full] at hrun
    cases hs : step_agent_full w l ag a with
    | none => rw [hs] at hrun; simp at hrun
    | some p =>
      obtain ⟨ag2, c⟩ := p
      rw [hs] at hrun
      simp only [Option.bind_eq_bind, Option.some_bind] at hrun
      obtain ⟨hglen, _, htrack, hreg, hciff⟩ := step_agent_full_spec hs
      have hg2 : ag2.intermediate_goals.length = G := by rw [hglen, hlen]
      have hnext1 : n + 1 < G →
          ag2.track.length = n + 1 + 2 ∧ ag2.registered_tracks.length = 0 := by
        intro h1
        have hn : n < G := by omega
        obtain ⟨ht0, hr0⟩ := hlt hn
        cases c with
        | true =>
          exfalso
          have hcc := hciff.mp rfl
          omega
        | false =>
          simp only [Bool.false_eq_true, if_false] at htrack hreg
          omega
      have hnext2 : G ≤ n + 1 →
          ag2.track.length = n + 1 + 3 ∧ ag2.registered_tracks.length = 1 := by
        intro h1
        by_cases hn : n < G
        · obtain ⟨ht0, hr0⟩ := hlt hn
          cases c with
          | false =>
            exfalso
            have hnc : ¬ (ag.track.length + 1 =
                ag.intermediate_goals.length + 2) :=
              fun hh => by simpa using hciff.mpr hh
            omega
          | true =>
            simp only [if_true] at htrack hreg
            omega
        · obtain ⟨ht0, hr0⟩ := hge (by omega)
          cases c with
          | true =>
            exfalso
            have hcc := hciff.mp rfl
            omega
          | false =>
            simp only [Bool.false_eq_true, if_false] at htrack hreg
            omega
      have hrec := ih (n + 1) ag2 ag1 hg2 hrun hnext1 hnext2
      simp only [List.length_cons]
      constructor
      · intro h1
        have hx := hrec.1 (by omega)
        exact ⟨by omega, hx.2⟩
      · intro h1
        have hx := hrec.2 (by omega)
        exact ⟨by omega, hx.2⟩

/-! The claims. -/

/-- C3, counterexample: the full-offset action space is `Discrete(49)`
(7 x 7 grid), not `Discrete(25)` as the claim states. -/
theorem claim_C3_counterexample :
    full_action_space_n = 49 ∧ full_action_space_n ≠ 25 := by
  unfold full_action_space_n
  rw [actions_list_length]
  exact ⟨rfl, by decide⟩

/-- C3, amended: the full-offset catalog is the Cartesian grid of 2-D
offsets with step 0.25 over [-0.75, 0.75] on both axes — 7 values per axis,
hence 49 pairs — and its action space is `Discrete(49)`; the left/right
catalog is the three scalar offsets -0.5, 0, 0.5 and its action space is
`Discrete(3)`. -/
theorem claim_C3_amended :
    full_action_space_n = 49 ∧
    offset_axis_values = [-3/4, -1/2, -1/4, 0, 1/4, 1/2, 3/4] ∧
    (∀ p : Vec2, p ∈ actions_list ↔
      (p.x ∈ offset_axis_values ∧ p.y ∈ offset_axis_values)) ∧
    lr_action_space_n = 3 ∧
    lr_actions_list = [-1/2, 0, 1/2] := by
  refine ⟨?_, offset_axis_values_eq, ?_, rfl, rfl⟩
  · unfold full_action_space_n
    exact actions_list_length
  · intro p
    rw [actions_list]
    simp only [List.mem_flatten, List.mem_map]
    constructor
    · rintro ⟨lp, ⟨a, ha, rfl⟩, hp⟩
      simp only [List.mem_map] at hp
      obtain ⟨b, hb, rfl⟩ := hp
      exact ⟨ha, hb⟩
    · rintro ⟨hx, hy⟩
      refine ⟨offset_axis_values.map (fun b => Vec2.mk p.x b),
        ⟨p.x, hx, rfl⟩, ?_⟩
      simp only [List.mem_map]
      exact ⟨p.y, hy, by cases p; rfl⟩

/-- C3, witness for the amended claim: the pair (-3/4, 1/2) is in the
full-offset catalog and the catalog size is 49. -/
theorem claim_C3_amended_witness :
    (Vec2.mk (-3/4) (1/2)) ∈ actions_list ∧ full_action_space_n = 49 := by
  constructor
  · apply (claim_C3_amended.2.2.1 ⟨-3/4, 1/2⟩).mpr
    rw [claim_C3_amended.2.1]
    constructor
    · simp
    · simp
  · exact claim_C3_amended.1

/-- C6: for a positive road width, the dummy-point resolver sends a point
violating the drivable square on exactly one axis to the far-field point on
that axis, for an arbitrary value of the other coordinate: `x > width/2`
gives `(length + width/2, y)` and symmetrically for the other three cases;
the resolver is a pure function (no side effects). -/
theorem claim_C6_dummy_point (w l : ℚ) (hw : 0 < w) (p : Vec2) :
    (p.x > w / 2 → ¬(p.y > w / 2 ∨ p.y < -(w / 2)) →
      get_dummy_point w l p = some ⟨l + w / 2, p.y⟩) ∧
    (p.x < -(w / 2) → ¬(p.y > w / 2 ∨ p.y < -(w / 2)) →
      get_dummy_point w l p = some ⟨-(l + w / 2), p.y⟩) ∧
    (p.y > w / 2 → ¬(p.x > w / 2 ∨ p.x < -(w / 2)) →
      get_dummy_point w l p = some ⟨p.x, l + w / 2⟩) ∧
    (p.y < -(w / 2) → ¬(p.x > w / 2 ∨ p.x < -(w / 2)) →
      get_dummy_point w l p = some ⟨p.x, -(l + w / 2)⟩) := by
  refine ⟨?_, ?_, ?_, ?_⟩
  · intro h1 _
    unfold get_dummy_point
    rw [if_pos h1]
  · intro h1 _
    have hx : ¬ (p.x > w / 2) := by intro hh; linarith
    unfold get_dummy_point
    rw [if_neg hx, if_pos h1]
  · intro h1 h2
    have h2a : ¬ (p.x > w / 2) := fun hh => h2 (Or.inl hh)
    have h2b : ¬ (p.x < -(w / 2)) := fun hh => h2 (Or.inr hh)
    unfold get_dummy_point
    rw [if_neg h2a, if_neg h2b, if_pos h1]
  · intro h1 h2
    have h2a : ¬ (p.x > w / 2) := fun hh => h2 (Or.inl hh)
    have h2b : ¬ (p.x < -(w / 2)) := fun hh => h2 (Or.inr hh)
    have hy : ¬ (p.y > w / 2) := by intro hh; linarith
    unfold get_dummy_point
    rw [if_neg h2a, if_neg h2b, if_neg hy, if_pos h1]

/-- C6, witness: width 2, length 10, the point (3, 0) violates only the
positive x bound and resolves to (10 + 2/2, 0). -/
theorem claim_C6_dummy_point_witness :
    (0 : ℚ) < 2 ∧ (3 : ℚ) > 2 / 2 ∧
    get_dummy_point 2 10 ⟨3, 0⟩ = some ⟨10 + 2 / 2, 0⟩ := by
  refine ⟨by norm_num, by norm_num, ?_⟩
  exact (claim_C6_dummy_point 2 10 (by norm_num) ⟨3, 0⟩).1 (by norm_num)
    (by norm_num)

/-- C9, counterexample: the discrete index -1 lies outside [0, 49) yet the
full-offset step succeeds — Python wraps negative indices to the end of the
catalog instead of raising. -/
theorem claim_C9_counterexample :
    ¬ ((0 : Int) ≤ -1) ∧ (step_agent_full w0 l0 agA (-1)).isSome = true := by
  constructor
  · decide
  · have hg : pyGet agA.intermediate_goals ((agA.track_point : Int) - 1) =
        some ⟨0, 3, 0, 0⟩ := rfl
    simp only [step_agent_full, hg, pyGet_actions_list_neg_one,
      Option.bind_eq_bind, Option.some_bind]
    norm_num [pySet, agA, w0, l0, get_dummy_point]

/-- C9, amended: an index outside [-N, N) (N the catalog size: 49 for the
track-extension catalog, 13 for the low-level acceleration catalog) makes
the lookup raise and is fatal to the `step` / transform call; an index
inside [-N, N) never triggers the catalog indexing failure (negative ones
select from the end). -/
theorem claim_C9_amended (w l : ℚ) (ag : Agent) (action : Int)
    (dyn : Vec4 → ℚ → Vec4) (curr : List (String × ℚ)) (aid : String)
    (ts : ℕ) :
    ((action < -49 ∨ 49 ≤ action) →
      pyGet actions_list action = none ∧
      step_agent_full w l ag action = none) ∧
    (-49 ≤ action → action < 49 → (pyGet actions_list action).isSome = true) ∧
    ((action < -13 ∨ 13 ≤ action) →
      pyGet accln_control_actions_list action = none ∧
      transform_state_action_single_agent dyn curr aid ag action ts = none) ∧
    (-13 ≤ action → action < 13 →
      (pyGet accln_control_actions_list action).isSome = true) := by
  have hAL := actions_list_length
  have hCL := accln_control_actions_list_length
  refine ⟨?_, ?_, ?_, ?_⟩
  · intro h
    have hnone : pyGet actions_list action = none := by
      rw [pyGet_eq_none_iff, hAL]
      omega
    refine ⟨hnone, ?_⟩
    unfold step_agent_full
    cases hg : pyGet ag.intermediate_goals ((ag.track_point : Int) - 1) with
    | none => rfl
    | some g =>
      simp only [Option.bind_eq_bind, Option.some_bind]
      rw [hnone]
      rfl
  · intro h1 h2
    rw [pyGet_isSome_iff, hAL]
    omega
  · intro h
    have hnone : pyGet accln_control_actions_list action = none := by
      rw [pyGet_eq_none_iff, hCL]
      omega
    refine ⟨hnone, ?_⟩
    unfold transform_state_action_single_agent
    rw [hnone]
    rfl
  · intro h1 h2
    rw [pyGet_isSome_iff, hCL]
    omega

/-- C9, amended-claim witness: index 60 is fatal to both calls; indices 7
and 5 are accepted by the respective catalogs. -/
theorem claim_C9_amended_witness :
    step_agent_full w0 l0 agA 60 = none ∧
    (pyGet actions_list 7).isSome = true ∧
    transform_state_action_single_agent dyn0 [] "a" agA 60 1 = none ∧
    (pyGet accln_control_actions_list 5).isSome = true :=
  ⟨((claim_C9_amended w0 l0 agA 60 dyn0 [] "a" 1).1 (by norm_num)).2,
    (claim_C9_amended w0 l0 agA 7 dyn0 [] "a" 1).2.1 (by norm_num)
      (by norm_num),
    ((claim_C9_amended w0 l0 agA 60 dyn0 [] "a" 1).2.2.1 (by norm_num)).2,
    (claim_C9_amended w0 l0 agA 5 dyn0 [] "a" 1).2.2.2 (by norm_num)
      (by norm_num)⟩

/-- C10: an agent fresh from `add_vehicle` has `track_point = 0`, so a
full-offset step made before any observation read fetches the goal at
Python index `track_point - 1 = -1`, the LAST intermediate goal (and appends
it, offset, to the track); the step leaves `track_point` unchanged, and
`get_state_single_agent` is the operation that increments it. -/
theorem claim_C10_negative_cursor (w l : ℚ) (pos : Vec2) (sp ori : ℚ)
    (rd : ℕ) (goals : List Vec4) (ag : Agent)
    (hadd : add_vehicle w l pos sp ori rd goals = some ag)
    (g : Vec4) (hlast : goals.getLast? = some g)
    (action : Int) (dev : Vec2) (hdev : pyGet actions_list action = some dev)
    (ag1 : Agent) (c : Bool)
    (hstep : step_agent_full w l ag action = some (ag1, c)) :
    ag.track_point = 0 ∧
    pyGet ag.intermediate_goals ((ag.track_point : Int) - 1) = some g ∧
    ag1.track.get? ag.track.length =
      some ⟨g.x + dev.x * w / 2, g.y + dev.y * w / 2⟩ ∧
    ag1.track_point = ag.track_point ∧
    (get_state_single_agent w l ag).2.track_point = ag.track_point + 1 := by
  obtain ⟨d, hd, hag⟩ := add_vehicle_inv hadd
  have hne : goals ≠ [] := by
    intro hnil
    rw [hnil] at hlast
    simp at hlast
  have htp : ag.track_point = 0 := by rw [hag]
  have hgoals : ag.intermediate_goals = goals := by rw [hag]
  have h01 : ((ag.track_point : Int) - 1) = -1 := by rw [htp]; norm_num
  have hread : pyGet ag.intermediate_goals ((ag.track_point : Int) - 1) =
      some g := by
    rw [h01, hgoals, pyGet_neg_one goals hne, hlast]
  have hlen : 0 < ag.intermediate_goals.length := by
    rw [hgoals]
    exact List.length_pos.mpr hne
  refine ⟨htp, hread, step_agent_full_appends hread hdev hstep,
    (step_agent_full_spec hstep).2.1, ?_⟩
  exact (@get_state_single_agent_advances w l ag (by omega)).1

/-- C10, witness: the concrete fresh agent with one goal. -/
theorem claim_C10_witness :
    agA.track_point = 0 ∧
    pyGet agA.intermediate_goals ((agA.track_point : Int) - 1) =
      some ⟨0, 3, 0, 0⟩ ∧
    agA1.track.get? agA.track.length =
      some ⟨0 + (-3/4) * w0 / 2, 3 + (-3/4) * w0 / 2⟩ ∧
    agA1.track_point = agA.track_point ∧
    (get_state_single_agent w0 l0 agA).2.track_point = agA.track_point + 1 :=
  claim_C10_negative_cursor w0 l0 ⟨0, 3/2⟩ 0 0 0 [⟨0, 3, 0, 0⟩] agA
    add_vehicle_agA ⟨0, 3, 0, 0⟩ rfl 0 ⟨-3/4, -3/4⟩ pyGet_actions_list_zero
    agA1 true step_agent_full_agA

/-- C4: the spec declares `intermediate_goals` read-only to the core, but
the full-offset step's in-place `pt += deviation` writes through the tensor
slice view into the stored goal: from goal (0, 3, 0, 0), width 2 and action
index 0 the stored goal becomes (-3/4, 9/4, 0, 0). -/
theorem claim_C4_goal_mutation :
    agA.intermediate_goals = [⟨0, 3, 0, 0⟩] ∧
    (step_agent_full w0 l0 agA 0).map (fun r => r.1.intermediate_goals) =
      some [⟨-3/4, 9/4, 0, 0⟩] ∧
    ¬ ([(⟨-3/4, 9/4, 0, 0⟩ : Vec4)] = [⟨0, 3, 0, 0⟩]) := by
  refine ⟨rfl, ?_, ?_⟩
  · rw [step_agent_full_agA]
    rfl
  · intro h
    simp only [List.cons.injEq, Vec4.mk.injEq] at h
    have hx := h.1.1
    norm_num at hx

/-- C1, counterexample: agent "a" has one intermediate goal and agent "b"
two; the first outer step call completes "a"'s track and immediately runs
the inner rollout, returning done = True, although "b"'s track is still
incomplete (3 of the required 4 entries, nothing registered). -/
theorem claim_C1_counterexample :
    step_full w0 l0 envAB actsAB ticksAB =
      some (.rollout [("a", agA1), ("b", agB1)] [("a", 1), ("b", 2)]) ∧
    agB1.track.length < agB1.intermediate_goals.length + 2 ∧
    agB1.registered_tracks.length = 0 := by
  refine ⟨step_full_envAB, ?_, rfl⟩
  decide

/-- C1, amended: the outer step returns the no-op tuple
(observation, 0.0, False) exactly when NO agent's track reaches full length
during the call — equivalently, when the call registers no new track; the
inner rollout loop starts exactly when SOME agent's track completes during
the call, regardless of whether the other agents' tracks are complete. -/
theorem claim_C1_amended (w l : ℚ) (ags ags1 : List (String × Agent))
    (actions : List (String × Int)) (ticks : List (List (String × ℚ)))
    (c : Bool) (hb : step_full_build w l ags actions = some (ags1, c)) :
    (step_full w l ags actions ticks = some (.noop ags1) ↔ c = false) ∧
    (c = true ↔ total_registered ags < total_registered ags1) := by
  refine ⟨?_, (step_full_build_total_registered hb).2⟩
  unfold step_full
  rw [hb]
  simp only [Option.bind_eq_bind, Option.some_bind]
  cases c with
  | false => simp
  | true =>
    simp only [if_true]
    constructor
    · intro h
      exfalso
      cases hr : run_inner_loop (agent_ids ags1) ticks with
      | none => rw [hr] at h; simp at h
      | some r => rw [hr] at h; simp at h
    · intro h
      exact absurd h (by simp)

/-- C1, amended-claim witness: on the concrete two-agent table, the build
pass reports a completion, so the call is not a no-op and one more track is
registered. -/
theorem claim_C1_amended_witness :
    (step_full w0 l0 envAB actsAB ticksAB =
        some (.noop [("a", agA1), ("b", agB1)]) ↔ true = false) ∧
    (true = true ↔
      total_registered envAB < total_registered [("a", agA1), ("b", agB1)]) :=
  claim_C1_amended w0 l0 envAB [("a", agA1), ("b", agB1)] actsAB ticksAB true
    step_full_build_envAB

/-- C2, counterexample: with one intermediate goal, after N = 1 extension
call the track holds 4 points — the trailing dummy is appended at the
completing call — not N + 2 = 3 as the claim states. -/
theorem claim_C2_counterexample :
    agA.intermediate_goals.length = 1 ∧
    run_steps_full w0 l0 agA [0] = some agA1 ∧
    agA1.track.length = 4 ∧ ¬ ((4 : ℕ) = 1 + 2) :=
  ⟨rfl, run_steps_full_agA, rfl, by decide⟩

/-- C2, amended: for a fresh agent with G ≥ 1 intermediate goals and any
sequence of N successful full-offset extension calls, the track length is
N + 2 while N < G; at the call where N reaches G the track is completed —
the trailing dummy point brings its length to N + 3 (and it stays N + 3
ahead for hypothetical later calls) — and `register_track` is called
exactly once, exactly at that call (no registrations before it, exactly
one from it on). -/
theorem claim_C2_amended (w l : ℚ) (pos : Vec2) (sp ori : ℚ) (rd : ℕ)
    (goals : List Vec4) (ag0 : Agent)
    (hadd : add_vehicle w l pos sp ori rd goals = some ag0)
    (hG : 1 ≤ goals.length)
    (acts : List Int) (ag1 : Agent)
    (hrun : run_steps_full w l ag0 acts = some ag1) :
    (acts.length < goals.length →
      ag1.track.length = acts.length + 2 ∧
      ag1.registered_tracks.length = 0) ∧
    (goals.length ≤ acts.length →
      ag1.track.length = acts.length + 3 ∧
      ag1.registered_tracks.length = 1) := by
  obtain ⟨d, hd, hag⟩ := add_vehicle_inv hadd
  have hlen : ag0.intermediate_goals.length = goals.length := by rw [hag]
  have h1 : 0 < goals.length →
      ag0.track.length = 0 + 2 ∧ ag0.registered_tracks.length = 0 := by
    intro _
    rw [hag]
    exact ⟨rfl, rfl⟩
  have h2 : goals.length ≤ 0 →
      ag0.track.length = 0 + 3 ∧ ag0.registered_tracks.length = 1 := by
    intro hh
    exact absurd hh (by omega)
  have hres := run_steps_full_invariant acts 0 ag0 ag1 hlen hrun h1 h2
  simp only [Nat.zero_add] at hres
  exact hres

/-- C2, amended-claim witness: one goal, one call — track length 4 and
exactly one registration. -/
theorem claim_C2_amended_witness :
    (([(0 : Int)]).length < ([(⟨0, 3, 0, 0⟩ : Vec4)]).length →
      agA1.track.length = [(0 : Int)].length + 2 ∧
      agA1.registered_tracks.length = 0) ∧
    (([(⟨0, 3, 0, 0⟩ : Vec4)]).length ≤ [(0 : Int)].length →
      agA1.track.length = [(0 : Int)].length + 3 ∧
      agA1.registered_tracks.length = 1) :=
  claim_C2_amended w0 l0 ⟨0, 3/2⟩ 0 0 0 [⟨0, 3, 0, 0⟩] agA add_vehicle_agA
    (by decide) [0] agA1 run_steps_full_agA

/-- C5: whenever an outer step call (either variant) runs the inner rollout
loop to completion, the returned reward map assigns every agent id exactly
the sum, starting from 0.0, of that agent's own per-tick rewards from the
base environment over all inner-loop ticks, with no reward attributed to a
different agent. -/
theorem claim_C5_reward_accumulation (w l : ℚ) (ags : List (String × Agent))
    (actions : List (String × Int)) (ticks : List (List (String × ℚ)))
    (aid : String) :
    (∀ ags1 rew, step_full w l ags actions ticks = some (.rollout ags1 rew) →
      aid ∈ agent_ids ags1 →
      dict_get aid rew = some ((ticks.map (agent_tick_sum aid)).sum)) ∧
    (∀ ags1 rew, step_lr w l ags actions ticks = some (.rollout ags1 rew) →
      aid ∈ agent_ids ags1 →
      dict_get aid rew = some ((ticks.map (agent_tick_sum aid)).sum)) := by
  constructor
  · intro ags1 rew h ha
    obtain ⟨hb, hr⟩ := step_full_rollout_inv h
    exact run_inner_loop_sum hr ha
  · intro ags1 rew h ha
    obtain ⟨ags2, rew2, hb, hr, ho⟩ := step_lr_rollout_inv h
    simp only [StepOutcome.rollout.injEq] at ho
    obtain ⟨h1, h2⟩ := ho
    subst h1
    subst h2
    exact run_inner_loop_sum hr ha

/-- C5, witness: the concrete completing step on the two-agent table,
agent "a" over a one-tick trace. -/
theorem claim_C5_witness :
    dict_get "a" [("a", (1 : ℚ)), ("b", 2)] =
      some ((ticksAB.map (agent_tick_sum "a")).sum) :=
  (claim_C5_reward_accumulation w0 l0 envAB actsAB ticksAB "a").1
    [("a", agA1), ("b", agB1)] [("a", 1), ("b", 2)] step_full_envAB
    (by simp [agent_ids])

/-- C7: in the left/right variant, a single step call per agent applies the
selected scalar offset, scaled by width/2, to coordinate
(road digit + 1) mod 2 of every intermediate goal, appends all of them plus
one trailing dummy to the track, registers the track with the dynamics
model exactly once in that same call — completion is instantaneous — and
the call returns done = True. -/
theorem claim_C7_left_right_one_shot (w l : ℚ) (ag ag1 : Agent)
    (action : Int) (dev : ℚ)
    (hdev : pyGet lr_actions_list action = some dev)
    (hstep : step_agent_lr w l ag action = some ag1)
    (ags : List (String × Agent)) (actions : List (String × Int))
    (ticks : List (List (String × ℚ))) (out : StepOutcome)
    (hout : step_lr w l ags actions ticks = some out) :
    (∃ d, ag1.track = ag.track ++ ag.intermediate_goals.map (fun g =>
        set_coord ((ag.road_digit + 1) % 2) g.xy (dev * w / 2)) ++ [d]) ∧
    ag1.registered_tracks = ag.registered_tracks ++ [ag1.track] ∧
    ag1.registered_tracks.length = ag.registered_tracks.length + 1 ∧
    (∃ ags1 rew, out = .rollout ags1 rew) := by
  obtain ⟨last, d, hl, hd, ht, hrg⟩ := step_agent_lr_spec hdev hstep
  refine ⟨⟨d, ht⟩, hrg, ?_, ?_⟩
  · rw [hrg]
    simp
  · obtain ⟨ags1, rew, _, _, ho⟩ := step_lr_rollout_inv hout
    exact ⟨ags1, rew, ho⟩

/-- C7, witness: the concrete left/right agent, one call, one
registration. -/
theorem claim_C7_witness :
    agC1.registered_tracks = agC.registered_tracks ++ [agC1.track] ∧
    agC1.registered_tracks.length = agC.registered_tracks.length + 1 := by
  have h := claim_C7_left_right_one_shot w0 l0 agC agC1 2 (1/2) pyGet_lr_two
    step_agent_lr_agC envC actsC ticksC (.rollout [("c", agC1)] [("c", 5)])
    step_lr_envC
  exact ⟨h.2.1, h.2.2.1⟩

/-- C8: for a valid low-level action index and positive horizon, the action
transformer returns the zero goal and start 4-vectors plus an extras
payload holding timesteps + 1 nominal states — the agent's current
(x, y, speed, orientation) iterated through the dynamics model under the
single selected fixed action — paired with the repeated action sequence,
and records the selected action in the agent's current-action slot. -/
theorem claim_C8_transform (dyn : Vec4 → ℚ → Vec4) (curr : List (String × ℚ))
    (aid : String) (ag : Agent) (action : Int) (timesteps : ℕ) (a : ℚ)
    (ht : 0 < timesteps)
    (ha : pyGet accln_control_actions_list action = some a) :
    ∃ states curr1,
      transform_state_action_single_agent dyn curr aid ag action timesteps =
        some (⟨0, 0, 0, 0⟩, ⟨0, 0, 0, 0⟩,
          (states, List.replicate (timesteps + 1) a), curr1) ∧
      states.length = timesteps + 1 ∧
      (∀ k, k ≤ timesteps → states.get? k =
        some ((fun st => dyn st a)^[k]
          ⟨ag.position.x, ag.position.y, ag.speed, ag.orientation⟩)) ∧
      dict_get aid curr1 = some a := by
  refine ⟨nominal_states_list dyn a
      ⟨ag.position.x, ag.position.y, ag.speed, ag.orientation⟩ timesteps,
    dict_set aid a curr, ?_, nominal_states_list_length dyn a timesteps _,
    fun k hk => nominal_states_list_get dyn a timesteps k _ hk,
    dict_get_dict_set aid a curr⟩
  unfold transform_state_action_single_agent
  rw [ha]
  rfl

/-- C8, witness: the concrete dynamics oracle, action index 0, horizon 1. -/
theorem claim_C8_witness :
    (transform_state_action_single_agent dyn0 [] "a" agA 0 1).isSome =
      true := by
  obtain ⟨states, curr1, heq, _⟩ :=
    claim_C8_transform dyn0 [] "a" agA 0 1 (-3/2) (by decide) pyGet_accln_zero
  rw [heq]
  rfl

end SplineEnv
